import Mathlib

/-!
Verification of the ok-fp effect toolkit against its design document.

The development shallowly embeds the library's four effect types and the
operations the checked properties are about:

* `Either` and the `TaskEither`/`Task` constructor helpers are not part of the
  provided sources (only their callers and tests are), so they are modelled
  from the design document and marked as such in their doc comments.
* `Validation` (validation.ts, constructors.ts, helpers.ts), `Task` (task.ts,
  task constructors/helpers) and `TaskEither` (taskEither.ts,
  taskEither/helpers.ts) are translated from their sources.

Asynchronous computations are modelled by a two-phase state monad with
rejections.  A JavaScript thunk `() => Promise<T>` becomes a function from a
world state to (a) the state after the thunk's synchronous body ran — the
*invocation* phase — and (b) a pending settlement, itself a state transformer
producing the state after the promise's own asynchronous work completed
together with its outcome (a resolution or a rejection).  Invoking `run()`
performs only the invocation phase; awaiting the returned promise performs the
settlement phase.  This separation makes the library's scheduling guarantees
(every sibling invoked before any settlement is consulted; result order equal
to input order) expressible, while `runFull` — invoke, then settle — gives the
observable outcome of running and awaiting a task.
-/

set_option maxHeartbeats 1000000

namespace OkFp

/-- Modelled from the spec: the short-circuiting disjoint result type
`Either<E, T>` (design §2, §3, §4.2); its implementation file is not among the
provided sources, only its callers and tests are.  A tagged union of exactly
one of a `left` error or a `right` value. -/
inductive Either (ε α : Type) : Type where
  | left (e : ε)
  | right (v : α)
deriving Repr, DecidableEq

namespace Either

/-- Modelled from the spec: exhaustive case analysis on an Either
(the source's `match` method; named `matchWith` because `match` is a Lean
keyword). -/
def matchWith (e : Either ε α) (onLeft : ε → β) (onRight : α → β) : β :=
  match e with
  | .left l => onLeft l
  | .right r => onRight r

/-- Modelled from the spec: `map` short-circuits on the left branch
(mapper not invoked). -/
def map (e : Either ε α) (mapper : α → β) : Either ε β :=
  match e with
  | .left l => .left l
  | .right r => .right (mapper r)

/-- Modelled from the spec: `flatMap` short-circuits on the left branch
(mapper not invoked). -/
def flatMap (e : Either ε α) (mapper : α → Either ε β) : Either ε β :=
  match e with
  | .left l => .left l
  | .right r => mapper r

/-- Modelled from the spec: `ap` on two lefts returns only the receiver's
left (first-error-wins, no accumulation, design §4.2). -/
def ap (self : Either ε (α → β)) (arg : Either ε α) : Either ε β :=
  match self with
  | .left e => .left e
  | .right fn =>
    match arg with
    | .left e => .left e
    | .right v => .right (fn v)

/-- Modelled from the spec: `getOrElse` returns the right value or the
fallback applied to the left value. -/
def getOrElse (e : Either ε α) (fallback : ε → α) : α :=
  match e with
  | .left l => fallback l
  | .right r => r

/-- Modelled from the spec: `toResult` exposes the Either as an ok/error
record; `TaskEither.all` (taskEither/helpers.ts) consumes it, treating
`right v` as ok with value `v` and `left e` as not-ok with error `e`. -/
def toResult (e : Either ε α) : Except ε α :=
  match e with
  | .left l => .error l
  | .right r => .ok r

end Either

/-- Modelled from the spec: the `left` constructor of Either
(either/constructors.ts, not among the provided sources). -/
def left (e : ε) : Either ε α := Either.left e

/-- Modelled from the spec: the `right` constructor of Either
(either/constructors.ts, not among the provided sources). -/
def right (v : α) : Either ε α := Either.right v

/-- The raw validation value (model.ts): a tagged union of a `valid` value or
an `invalid` list of errors; `createValidation` of the source wraps exactly
this shape, so the inductive constructors play the role of
`createValidation({valid: v})` and `createValidation({invalid: es})`. -/
inductive Validation (ε α : Type) : Type where
  | valid (v : α)
  | invalid (errors : List ε)
deriving Repr, DecidableEq

namespace Validation

/-- Translated from validation.ts `match`: dispatches on the tag (named
`matchWith` because `match` is a Lean keyword). -/
def matchWith (v : Validation ε α) (onInvalid : List ε → β) (onValid : α → β) : β :=
  match v with
  | .valid a => onValid a
  | .invalid es => onInvalid es

/-- Translated from validation.ts `map`: if valid, wraps the mapped value;
if invalid, returns the same invalid unchanged (the source's `forceCast` is
an identity on the invalid payload). -/
def map (v : Validation ε α) (mapper : α → β) : Validation ε β :=
  v.matchWith (fun es => .invalid es) (fun a => .valid (mapper a))

/-- Translated from validation.ts `ap`: the source's nested `match` dispatch —
both invalid concatenates receiver errors then argument errors; one invalid
side propagates its own errors; both valid applies the function. -/
def ap (self : Validation ε (α → β)) (arg : Validation ε α) : Validation ε β :=
  self.matchWith
    (fun errors1 =>
      arg.matchWith
        (fun errors2 => .invalid (errors1 ++ errors2))
        (fun _ => .invalid errors1))
    (fun fn =>
      arg.matchWith
        (fun errors2 => .invalid errors2)
        (fun v => .valid (fn v)))

/-- Translated from validation.ts `getOrElse`. -/
def getOrElse (v : Validation ε α) (fallback : List ε → α) : α :=
  v.matchWith (fun errors => fallback errors) (fun a => a)

end Validation

/-- Translated from validation/constructors.ts `valid`: wraps a valid value. -/
def valid (value : α) : Validation ε α := Validation.valid value

/-- Translated from validation/constructors.ts `invalid`: wraps a single
error as a one-element error list. -/
def invalid (error : ε) : Validation ε α := Validation.invalid [error]

/-- Translated from validation/constructors.ts `fromEither`: right becomes
valid, left becomes invalid with a single error. -/
def fromEither (either : Either ε α) : Validation ε α :=
  either.matchWith (fun error => invalid error) (fun value => valid value)

/-- Translated from validation/helpers.ts `map2`: curried combination via
`map` and `ap`. -/
def map2 (valA : Validation ε α) (valB : Validation ε β) (mapper : α → β → γ) :
    Validation ε γ :=
  (valA.map (fun a => fun b => mapper a b)).ap valB

/-- Translated from validation/helpers.ts `map3`: curried combination via
`map` and two `ap`s. -/
def map3 (valA : Validation ε α) (valB : Validation ε β) (valC : Validation ε γ)
    (mapper : α → β → γ → δ) : Validation ε δ :=
  ((valA.map (fun a => fun b => fun c => mapper a b c)).ap valB).ap valC

/-- Translated from validation/helpers.ts `traverse`: the loop body — each
item's validation pushes its errors onto the error accumulator or its value
onto the value accumulator. -/
def traverseStep (f : α → Validation ε β) (acc : List ε × List β) (a : α) :
    List ε × List β :=
  (f a).matchWith
    (fun errs => (acc.1 ++ errs, acc.2))
    (fun v => (acc.1, acc.2 ++ [v]))

/-- Translated from validation/helpers.ts `traverse`: folds the loop over the
items starting from empty accumulators, then returns invalid with the
collected errors when any were found, else valid with the collected values. -/
def traverse (as : List α) (f : α → Validation ε β) : Validation ε (List β) :=
  let acc := as.foldl (traverseStep f) ([], [])
  if acc.1.length > 0 then .invalid acc.1 else .valid acc.2

/-- Translated from validation/helpers.ts `sequence`: traverse with the
identity function. -/
def sequence (validations : List (Validation ε α)) : Validation ε (List α) :=
  traverse validations (fun v => v)

/-- The errors a single validation contributes to an accumulator: its error
list when invalid, nothing when valid. -/
def errorsOf (v : Validation ε α) : List ε :=
  match v with
  | .valid _ => []
  | .invalid es => es

/-- The values a single validation contributes to an accumulator: its value
when valid, nothing when invalid. -/
def valuesOf (v : Validation ε α) : List α :=
  match v with
  | .valid a => [a]
  | .invalid _ => []

/-- The concatenation, in item order, of every item's contributed errors. -/
def collectErrors (f : α → Validation ε β) : List α → List ε
  | [] => []
  | a :: rest => errorsOf (f a) ++ collectErrors f rest

/-- The concatenation, in item order, of every item's contributed values. -/
def collectValues (f : α → Validation ε β) : List α → List β
  | [] => []
  | a :: rest => valuesOf (f a) ++ collectValues f rest

/-- The non-empty-error invariant of the design document: whenever a
validation is invalid, it carries at least one error. -/
def WF (v : Validation ε α) : Prop :=
  match v with
  | .valid _ => True
  | .invalid es => es ≠ []

instance : (v : Validation ε α) → Decidable (WF v)
  | .valid _ => isTrue trivial
  | .invalid [] => isFalse (by simp [WF])
  | .invalid (_ :: _) => isTrue (by simp [WF])

theorem traverse_foldl (f : α → Validation ε β) (as : List α)
    (accE : List ε) (accV : List β) :
    as.foldl (traverseStep f) (accE, accV) =
      (accE ++ collectErrors f as, accV ++ collectValues f as) := by
  induction as generalizing accE accV with
  | nil => simp [collectErrors, collectValues]
  | cons a rest ih =>
    cases hfa : f a with
    | valid v =>
      simp [List.foldl_cons, traverseStep, hfa, Validation.matchWith, ih,
        collectErrors, collectValues, errorsOf, valuesOf]
    | invalid es =>
      simp [List.foldl_cons, traverseStep, hfa, Validation.matchWith, ih,
        collectErrors, collectValues, errorsOf, valuesOf]

theorem traverse_eq_valid (as : List α) (f : α → Validation ε β)
    (h0 : collectErrors f as = []) :
    traverse as f = Validation.valid (collectValues f as) := by
  have h := traverse_foldl f as [] []
  simp at h
  simp [traverse, h, h0]

theorem traverse_eq_invalid (as : List α) (f : α → Validation ε β)
    (h0 : collectErrors f as ≠ []) :
    traverse as f = Validation.invalid (collectErrors f as) := by
  have h := traverse_foldl f as [] []
  simp at h
  have hlen : 0 < (collectErrors f as).length := List.length_pos.mpr h0
  simp [traverse, h, hlen]

theorem collect_of_pointwise_valid (f : α → Validation ε β) (g : α → β)
    (as : List α) (h : ∀ a ∈ as, f a = Validation.valid (g a)) :
    collectErrors f as = [] ∧ collectValues f as = as.map g := by
  induction as with
  | nil => simp [collectErrors, collectValues]
  | cons a rest ih =>
    have ha := h a (by simp)
    have ih2 := ih (fun b hb => h b (by simp [hb]))
    simp [collectErrors, collectValues, ha, errorsOf, valuesOf, ih2.1, ih2.2]

theorem collectErrors_nil_of_all_valid (f : α → Validation ε β) (as : List α)
    (h : ∀ a ∈ as, ∃ v, f a = Validation.valid v) :
    collectErrors f as = [] := by
  induction as with
  | nil => simp [collectErrors]
  | cons a rest ih =>
    obtain ⟨v, hv⟩ := h a (by simp)
    have := ih (fun b hb => h b (by simp [hb]))
    simp [collectErrors, hv, errorsOf, this]

theorem all_valid_of_collectErrors_nil (f : α → Validation ε β) (as : List α)
    (hwf : ∀ a ∈ as, WF (f a)) (h : collectErrors f as = []) :
    ∀ a ∈ as, ∃ v, f a = Validation.valid v := by
  induction as with
  | nil => simp
  | cons a rest ih =>
    simp [collectErrors, List.append_eq_nil] at h
    intro b hb
    rw [List.mem_cons] at hb
    rcases hb with hb | hb
    · subst hb
      cases hfb : f b with
      | valid v => exact ⟨v, rfl⟩
      | invalid es =>
        exfalso
        have hw := hwf b (by simp)
        rw [hfb] at hw
        have : es = [] := by
          have := h.1
          rw [hfb] at this
          simpa [errorsOf] using this
        exact hw this
    · exact ih (fun c hc => hwf c (by simp [hc])) h.2 b hb

theorem WF_map (v : Validation ε α) (f : α → β) (h : WF v) : WF (v.map f) := by
  cases v with
  | valid a => trivial
  | invalid es => simpa [Validation.map, Validation.matchWith, WF] using h

theorem WF_ap (u : Validation ε (α → β)) (v : Validation ε α)
    (hu : WF u) (hv : WF v) : WF (u.ap v) := by
  cases u with
  | valid fn =>
    cases v with
    | valid a => trivial
    | invalid es => simpa [Validation.ap, Validation.matchWith, WF] using hv
  | invalid es1 =>
    cases v with
    | valid a => simpa [Validation.ap, Validation.matchWith, WF] using hu
    | invalid es2 =>
      simp [Validation.ap, Validation.matchWith, WF, List.append_eq_nil]
        at hu ⊢
      tauto

theorem WF_traverse (as : List α) (f : α → Validation ε β) :
    WF (traverse as f) := by
  rcases hE : collectErrors f as with _ | ⟨e, es⟩
  · rw [traverse_eq_valid as f hE]
    trivial
  · rw [traverse_eq_invalid as f (by simp [hE])]
    simp [WF, hE]

/-- Claim C1: Validation.ap accumulates errors in receiver-then-argument
order.  For every invalid receiver carrying errors es1 and invalid argument
carrying errors es2, receiver.ap(argument) is invalid carrying es1 followed by
es2; in particular invalid(e1).ap(invalid(e2)) is invalid with error sequence
exactly [e1, e2], and when e1 and e2 differ the sequence is never [e2, e1].
In the data model an invalid receiver carries no wrapped function at all, so
the wrapped function is never applied in these cases. -/
theorem validation_ap_accumulates_receiver_then_argument (ε α β : Type) :
    (∀ (es1 es2 : List ε),
      Validation.ap (Validation.invalid es1 : Validation ε (α → β))
        (Validation.invalid es2) = Validation.invalid (es1 ++ es2))
    ∧ (∀ (e1 e2 : ε),
      Validation.ap (invalid e1 : Validation ε (α → β)) (invalid e2) =
        Validation.invalid [e1, e2])
    ∧ (∀ (e1 e2 : ε), e1 ≠ e2 →
      Validation.ap (invalid e1 : Validation ε (α → β)) (invalid e2) ≠
        Validation.invalid [e2, e1]) := by
  refine ⟨fun es1 es2 => rfl, fun e1 e2 => rfl, fun e1 e2 hne h => ?_⟩
  simp [Validation.ap, Validation.matchWith, invalid] at h
  exact hne h.1

/-- Witness for claim C1 at concrete inputs. -/
theorem validation_ap_accumulates_witness :
    Validation.ap (invalid 1 : Validation Nat (Nat → Nat)) (invalid 2) =
      Validation.invalid [1, 2] ∧
    Validation.ap (invalid 1 : Validation Nat (Nat → Nat)) (invalid 2) ≠
      Validation.invalid [2, 1] :=
  ⟨(validation_ap_accumulates_receiver_then_argument Nat Nat Nat).2.1 1 2,
   (validation_ap_accumulates_receiver_then_argument Nat Nat Nat).2.2 1 2
     (by decide)⟩

/-- Claim C5: Validation.traverse applies f to every item in order and never
short-circuits error discovery: the result is invalid with the concatenation,
in item order, of every invalid item's error sequence (valid items contribute
nothing) whenever that concatenation is non-empty; it is valid with the
ordered sequence of all produced values exactly when every item produced
valid (for items whose validations satisfy the non-empty-error invariant);
the empty input yields valid with the empty sequence; and sequence is
traverse with the identity function. -/
theorem validation_traverse_accumulates_all_errors (ε α β : Type) :
    (∀ (f : α → Validation ε β), traverse ([] : List α) f = Validation.valid [])
    ∧ (∀ (as : List α) (f : α → Validation ε β) (g : α → β),
        (∀ a ∈ as, f a = Validation.valid (g a)) →
        traverse as f = Validation.valid (as.map g))
    ∧ (∀ (as : List α) (f : α → Validation ε β),
        collectErrors f as ≠ [] →
        traverse as f = Validation.invalid (collectErrors f as))
    ∧ (∀ (as : List α) (f : α → Validation ε β),
        (∀ a ∈ as, WF (f a)) →
        ((∃ vs, traverse as f = Validation.valid vs) ↔
          ∀ a ∈ as, ∃ v, f a = Validation.valid v))
    ∧ (∀ (vs : List (Validation ε α)),
        sequence vs = traverse vs (fun v => v)) := by
  refine ⟨fun f => rfl, ?_, ?_, ?_, fun vs => rfl⟩
  · intro as f g h
    obtain ⟨hE, hV⟩ := collect_of_pointwise_valid f g as h
    rw [traverse_eq_valid as f hE, hV]
  · intro as f h
    exact traverse_eq_invalid as f h
  · intro as f hwf
    constructor
    · rintro ⟨vs, hvs⟩
      apply all_valid_of_collectErrors_nil f as hwf
      by_contra hne
      rw [traverse_eq_invalid as f hne] at hvs
      exact Validation.noConfusion hvs
    · intro h
      exact ⟨collectValues f as,
        traverse_eq_valid as f (collectErrors_nil_of_all_valid f as h)⟩

/-- Witness for claim C5 at concrete inputs, exercising a mixed list where
error discovery must pass over a valid item between two invalid ones. -/
theorem validation_traverse_witness :
    traverse [-1, 2, -3]
        (fun x : Int => if x > 0 then valid x else Validation.invalid [x]) =
      Validation.invalid [-1, -3] ∧
    traverse [1, 2, 3]
        (fun x : Int => (valid (x * 2) : Validation Int Int)) =
      Validation.valid [2, 4, 6] ∧
    ((∃ vs, traverse [1, -2]
        (fun x : Int => if x > 0 then valid x else Validation.invalid [x]) =
          Validation.valid vs) ↔
      ∀ a ∈ [1, -2], ∃ v,
        (if a > 0 then valid a else Validation.invalid [a]) =
          Validation.valid v) := by
  refine ⟨?_, ?_, ?_⟩
  · have h := (validation_traverse_accumulates_all_errors Int Int Int).2.2.1
      [-1, 2, -3] (fun x => if x > 0 then valid x else Validation.invalid [x])
      (by decide)
    simpa using h
  · have h := (validation_traverse_accumulates_all_errors Int Int Int).2.1
      [1, 2, 3] (fun x => valid (x * 2)) (fun x => x * 2) (by decide)
    simpa using h
  · exact (validation_traverse_accumulates_all_errors Int Int Int).2.2.2.1
      [1, -2] (fun x => if x > 0 then valid x else Validation.invalid [x])
      (by decide)

/-- Claim C6: the non-empty-error invariant.  Every Validation obtained from
the public constructors valid, invalid and fromEither satisfies WF (invalid
branch carries at least one error), and map, ap, map2, map3, traverse and
sequence preserve WF (traverse and sequence establish it unconditionally,
since their invalid branch is only taken when at least one error was
collected). -/
theorem validation_invariant_nonempty_errors (ε α β γ δ : Type) :
    (∀ v : α, WF (valid v : Validation ε α))
    ∧ (∀ e : ε, WF (invalid e : Validation ε α))
    ∧ (∀ e : Either ε α, WF (fromEither e))
    ∧ (∀ (v : Validation ε α) (f : α → β), WF v → WF (v.map f))
    ∧ (∀ (u : Validation ε (α → β)) (v : Validation ε α),
        WF u → WF v → WF (u.ap v))
    ∧ (∀ (a : Validation ε α) (b : Validation ε β) (m : α → β → γ),
        WF a → WF b → WF (map2 a b m))
    ∧ (∀ (a : Validation ε α) (b : Validation ε β) (c : Validation ε γ)
        (m : α → β → γ → δ), WF a → WF b → WF c → WF (map3 a b c m))
    ∧ (∀ (as : List α) (f : α → Validation ε β), WF (traverse as f))
    ∧ (∀ (vs : List (Validation ε α)), WF (sequence vs)) := by
  refine ⟨fun v => trivial, fun e => by simp [invalid, WF], ?_, WF_map, WF_ap,
    ?_, ?_, WF_traverse, fun vs => WF_traverse vs (fun v => v)⟩
  · intro e
    cases e with
    | left l => simp [fromEither, Either.matchWith, invalid, WF]
    | right r => trivial
  · intro a b m ha hb
    exact WF_ap _ _ (WF_map a _ ha) hb
  · intro a b c m ha hb hc
    exact WF_ap _ _ (WF_ap _ _ (WF_map a _ ha) hb) hc

/-- Witness for claim C6 at concrete inputs, discharging the WF hypotheses of
the preservation clauses on concrete validations. -/
theorem validation_invariant_witness :
    WF ((Validation.invalid [1] : Validation Nat Nat).map (fun x => x + 1)) ∧
    WF (Validation.ap (Validation.invalid [1] : Validation Nat (Nat → Nat))
      (Validation.invalid [2])) ∧
    WF (map2 (Validation.invalid [1] : Validation Nat Nat)
      (valid 5 : Validation Nat Nat) (fun a b => a + b)) ∧
    WF (map3 (valid 1 : Validation Nat Nat)
      (Validation.invalid [2] : Validation Nat Nat)
      (Validation.invalid [3] : Validation Nat Nat) (fun a b c => a + b + c)) :=
  ⟨(validation_invariant_nonempty_errors Nat Nat Nat Nat Nat).2.2.2.1
      (Validation.invalid [1]) (fun x => x + 1) (by decide),
   (validation_invariant_nonempty_errors Nat Nat Nat Nat Nat).2.2.2.2.1
      (Validation.invalid [1]) (Validation.invalid [2]) (by decide) (by decide),
   (validation_invariant_nonempty_errors Nat Nat Nat Nat Nat).2.2.2.2.2.1
      (Validation.invalid [1]) (valid 5) (fun a b => a + b) (by decide)
      (by decide),
   (validation_invariant_nonempty_errors Nat Nat Nat Nat Nat).2.2.2.2.2.2.1
      (valid 1) (Validation.invalid [2]) (Validation.invalid [3])
      (fun a b c => a + b + c) (by decide) (by decide) (by decide)⟩

/-- The settlement of a JS promise: a state transformer producing the state
after the promise's asynchronous work completed, together with its outcome —
a resolution (ok) or a rejection (error). -/
@[reducible] def Settle (σ exn α : Type) : Type := σ → σ × Except exn α

/-- A JS thunk `() => Promise<T>` (model.ts TaskValue): invoking it performs
its synchronous body on the world state and hands back a pending
settlement. -/
@[reducible] def JsThunk (σ exn α : Type) : Type := σ → σ × Settle σ exn α

/-- Promise chaining `p.then(cb)` where the callback returns a settlement:
a rejection skips the callback and propagates; a resolution feeds the value
to the callback.  A callback that throws is a callback whose settlement
rejects. -/
def settleThen (p : Settle σ exn α) (cb : α → Settle σ exn β) :
    Settle σ exn β :=
  fun s =>
    match p s with
    | (s1, .error e) => (s1, .error e)
    | (s1, .ok v) => cb v s1

/-- Translated from task.ts: a Task owns a wrapped thunk and nothing else. -/
structure Task (σ exn α : Type) : Type where
  thunk : JsThunk σ exn α

namespace Task

/-- Translated from task.ts `run`: invokes the wrapped thunk. -/
def run (t : Task σ exn α) : JsThunk σ exn α := t.thunk

/-- The observable outcome of running a task and awaiting its promise:
invoke the thunk, then settle the returned promise. -/
def runFull (t : Task σ exn α) (s : σ) : σ × Except exn α :=
  let r := t.thunk s
  r.2 r.1

/-- Translated from task.ts `map`: a new task whose thunk re-invokes the
original thunk and chains the pure mapper onto the settlement. -/
def map (t : Task σ exn α) (mapper : α → β) : Task σ exn β :=
  ⟨fun s =>
    let r := t.thunk s
    (r.1, settleThen r.2 (fun value s2 => (s2, .ok (mapper value))))⟩

/-- Translated from task.ts `flatMap`: invoke the original thunk; once it
resolves, invoke the mapper's task (its thunk runs only then) and adopt its
settlement. -/
def flatMap (t : Task σ exn α) (mapper : α → Task σ exn β) : Task σ exn β :=
  ⟨fun s =>
    let r := t.thunk s
    (r.1, settleThen r.2 (fun value s2 =>
      let inner := (mapper value).run s2
      inner.2 inner.1))⟩

/-- Translated from task.ts `ap`: Promise.all over the receiver's and the
argument's runs — both thunks are invoked during the combined thunk's
synchronous body, then both settlements are awaited (in input order, as the
single-threaded event loop settles them) and the function is applied. -/
def ap (self : Task σ exn (α → β)) (arg : Task σ exn α) : Task σ exn β :=
  ⟨fun s =>
    let r1 := self.run s
    let r2 := arg.run r1.1
    (r2.1, fun s2 =>
      let p1 := r1.2 s2
      let p2 := r2.2 p1.1
      (p2.1,
        match p1.2, p2.2 with
        | .error e, _ => .error e
        | .ok _, .error e => .error e
        | .ok fn, .ok a => .ok (fn a)))⟩

/-- Translated from task.ts `zip`: map to a pairing function, then ap. -/
def zip (t : Task σ exn α) (taskA : Task σ exn β) : Task σ exn (α × β) :=
  (t.map (fun value => fun a => (value, a))).ap taskA

/-- Translated from task.ts `flatten`: flatMap with the identity. -/
def flatten (t : Task σ exn (Task σ exn α)) : Task σ exn α :=
  t.flatMap (fun value => value)

/-- Translated from task.ts `tap`: chain a synchronous side effect onto the
settlement; the side effect may mutate the state, may throw (rejecting the
chained promise), and its returned value — promise or not — is discarded
unawaited; on normal return the original value is resolved unchanged. -/
def tap (t : Task σ exn α) (sideEffect : α → σ → σ × Except exn β) :
    Task σ exn α :=
  ⟨fun s =>
    let r := t.thunk s
    (r.1, settleThen r.2 (fun value s2 =>
      let eff := sideEffect value s2
      (eff.1,
        match eff.2 with
        | .error e => .error e
        | .ok _ => .ok value)))⟩

end Task

/-- Translated from task/constructors.ts `createTask` (the factory the
constructors and combinators share): wraps the thunk. -/
def createTask (thunk : JsThunk σ exn α) : Task σ exn α := ⟨thunk⟩

/-- Translated from task/constructors.ts `task`: wraps an immediately
resolved value; invocation has no synchronous side effect. -/
def task (value : α) : Task σ exn α :=
  createTask (fun s => (s, fun s2 => (s2, .ok value)))

/-- Translated from task/constructors.ts `fromPromise`: wraps the given
thunk as-is. -/
def fromPromise (thunk : JsThunk σ exn α) : Task σ exn α := createTask thunk

/-- The synchronous prefix of `list.map(x => x.run())`: invokes every thunk
in input order, collecting the pending settlements in input order. -/
def invokeAll : List (JsThunk σ exn α) → σ → σ × List (Settle σ exn α)
  | [], s => (s, [])
  | th :: rest, s =>
    let r := th s
    let rr := invokeAll rest r.1
    (rr.1, r.2 :: rr.2)

/-- Awaiting every pending settlement, in input order, collecting every
outcome (Promise.all does not cancel siblings of a rejected promise). -/
def settleAll : List (Settle σ exn α) → σ → σ × List (Except exn α)
  | [], s => (s, [])
  | p :: rest, s =>
    let r := p s
    let rr := settleAll rest r.1
    (rr.1, r.2 :: rr.2)

/-- Promise.all's combined outcome over the settled outcomes: the first
rejection in input order, or the resolved values in input order. -/
def promiseAll : List (Except exn α) → Except exn (List α)
  | [] => .ok []
  | .error e :: _ => .error e
  | .ok v :: rest => (promiseAll rest).map (fun vs => v :: vs)

/-- Translated from task/helpers.ts `all`: a task whose thunk maps run over
the list (invoking every thunk) and whose settlement awaits them all. -/
def Task.all (tasks : List (Task σ exn α)) : Task σ exn (List α) :=
  ⟨fun s =>
    let r := invokeAll (tasks.map Task.run) s
    (r.1, fun s2 =>
      let q := settleAll r.2 s2
      (q.1, promiseAll q.2))⟩

/-- Translated from task/helpers.ts `traverse`: all over the mapped items. -/
def Task.traverse (items : List α) (mapper : α → Task σ exn β) :
    Task σ exn (List β) :=
  Task.all (items.map mapper)

/-- Translated from task/helpers.ts `sequence`: equivalent to all. -/
def Task.sequence (tasks : List (Task σ exn α)) : Task σ exn (List α) :=
  Task.all tasks

/-- Translated from taskEither.ts: a TaskEither owns a wrapped thunk whose
promise resolves with an Either. -/
structure TaskEither (σ exn ε α : Type) : Type where
  thunk : JsThunk σ exn (Either ε α)

namespace TaskEither

/-- Translated from taskEither.ts `run`: invokes the wrapped thunk. -/
def run (te : TaskEither σ exn ε α) : JsThunk σ exn (Either ε α) := te.thunk

/-- The observable outcome of running a TaskEither and awaiting its promise:
invoke the thunk, then settle. -/
def runFull (te : TaskEither σ exn ε α) (s : σ) : σ × Except exn (Either ε α) :=
  let r := te.thunk s
  r.2 r.1

/-- Translated from taskEither.ts `flatMap`: invoke the original thunk; a
left outcome resolves immediately with that left (the mapper is not called);
a right outcome invokes the mapper's TaskEither and adopts its settlement;
a rejection propagates. -/
def flatMap (te : TaskEither σ exn ε α)
    (mapper : α → TaskEither σ exn ε β) : TaskEither σ exn ε β :=
  ⟨fun s =>
    let r := te.thunk s
    (r.1, settleThen r.2 (fun either s2 =>
      match either with
      | .left leftVal => (s2, .ok (.left leftVal))
      | .right rightVal =>
        let inner := (mapper rightVal).run s2
        inner.2 inner.1))⟩

/-- Translated from taskEither.ts `map`: flatMap into an immediately
successful TaskEither wrapping the mapped value. -/
def map (te : TaskEither σ exn ε α) (mapper : α → β) : TaskEither σ exn ε β :=
  te.flatMap (fun rightVal =>
    ⟨fun s => (s, fun s2 => (s2, .ok (.right (mapper rightVal))))⟩)

/-- Translated from taskEither.ts `ap`: Promise.all over the receiver's and
the argument's runs — both thunks invoked during the combined synchronous
body — then the settled Eithers are combined with Either.ap
(first-error-wins). -/
def ap (self : TaskEither σ exn ε (α → β)) (arg : TaskEither σ exn ε α) :
    TaskEither σ exn ε β :=
  ⟨fun s =>
    let r1 := self.run s
    let r2 := arg.run r1.1
    (r2.1, fun s2 =>
      let p1 := r1.2 s2
      let p2 := r2.2 p1.1
      (p2.1,
        match p1.2, p2.2 with
        | .error e, _ => .error e
        | .ok _, .error e => .error e
        | .ok eitherFn, .ok eitherA => .ok (eitherFn.ap eitherA)))⟩

/-- Translated from taskEither.ts `zip`: map to a pairing function, then
ap. -/
def zip (te : TaskEither σ exn ε α) (other : TaskEither σ exn ε β) :
    TaskEither σ exn ε (α × β) :=
  (te.map (fun value => fun a => (value, a))).ap other

/-- Translated from taskEither.ts `flatten`: flatMap with the identity. -/
def flatten (te : TaskEither σ exn ε (TaskEither σ exn ε α)) :
    TaskEither σ exn ε α :=
  te.flatMap (fun value => value)

/-- Translated from taskEither.ts `match`: a Task that resolves the
underlying computation and dispatches on the Either (named `matchWith`
because `match` is a Lean keyword). -/
def matchWith (te : TaskEither σ exn ε α) (onLeft : ε → β) (onRight : α → β) :
    Task σ exn β :=
  createTask (fun s =>
    let r := te.thunk s
    (r.1, settleThen r.2 (fun either s2 =>
      (s2, .ok (either.matchWith onLeft onRight)))))

end TaskEither

/-- Translated from taskEither.ts `createTaskEither`: wraps the thunk. -/
def createTaskEither (thunk : JsThunk σ exn (Either ε α)) :
    TaskEither σ exn ε α := ⟨thunk⟩

/-- Modelled from the spec: the `taskEither` constructor
(taskEither/constructors.ts, not among the provided sources) wraps an
immediately successful (right) value, with no synchronous side effect. -/
def taskEither (value : α) : TaskEither σ exn ε α :=
  createTaskEither (fun s => (s, fun s2 => (s2, .ok (.right value))))

/-- Modelled from the spec: the `taskLeft` constructor
(taskEither/constructors.ts, not among the provided sources) wraps an
immediately failed (left) error, with no synchronous side effect. -/
def taskLeft (error : ε) : TaskEither σ exn ε α :=
  createTaskEither (fun s => (s, fun s2 => (s2, .ok (.left error))))

/-- Translated from taskEither/helpers.ts `all`: the scan loop over the
settled Eithers — returns the first left encountered in input order, else
pushes each right value onto the output array. -/
def scanEithers : List (Either ε α) → List α → Either ε (List α)
  | [], out => .right out
  | either :: rest, out =>
    match either.toResult with
    | .error e => .left e
    | .ok v => scanEithers rest (out ++ [v])

/-- Translated from taskEither/helpers.ts `all`: Promise.all over the runs
(every thunk invoked during the synchronous body, every settlement awaited),
then — only after all outcomes are in — the input-order scan. -/
def TaskEither.all (taskEithers : List (TaskEither σ exn ε α)) :
    TaskEither σ exn ε (List α) :=
  ⟨fun s =>
    let r := invokeAll (taskEithers.map TaskEither.run) s
    (r.1, fun s2 =>
      let q := settleAll r.2 s2
      (q.1,
        match promiseAll q.2 with
        | .error ex => .error ex
        | .ok eithers => .ok (scanEithers eithers [])))⟩

/-- The state and outcome list Promise.all gathers for a list of
TaskEithers: invoke every thunk in input order, then settle every promise in
input order. -/
def gatherTE (tes : List (TaskEither σ exn ε α)) (s : σ) :
    σ × List (Except exn (Either ε α)) :=
  let r := invokeAll (tes.map TaskEither.run) s
  settleAll r.2 r.1

theorem task_runFull_flatMap (m : Task σ exn α) (f : α → Task σ exn β)
    (s : σ) :
    (m.flatMap f).runFull s =
      match m.runFull s with
      | (s1, .error e) => (s1, .error e)
      | (s1, .ok v) => (f v).runFull s1 := by
  rcases hm : m.thunk s with ⟨sa, p⟩
  rcases hp : p sa with ⟨s1, r⟩
  cases r with
  | error e =>
    simp [Task.runFull, Task.flatMap, Task.run, settleThen, hm, hp]
  | ok v =>
    simp [Task.runFull, Task.flatMap, Task.run, settleThen, hm, hp]

theorem task_runFull_tap (t : Task σ exn α)
    (se : α → σ → σ × Except exn β) (s : σ) :
    (t.tap se).runFull s =
      match t.runFull s with
      | (s1, .error e) => (s1, .error e)
      | (s1, .ok v) =>
        ((se v s1).1,
          match (se v s1).2 with
          | .error e => .error e
          | .ok _ => .ok v) := by
  rcases hm : t.thunk s with ⟨sa, p⟩
  rcases hp : p sa with ⟨s1, r⟩
  cases r with
  | error e =>
    simp [Task.runFull, Task.tap, Task.run, settleThen, hm, hp]
  | ok v =>
    simp [Task.runFull, Task.tap, Task.run, settleThen, hm, hp]

theorem taskEither_runFull_flatMap (m : TaskEither σ exn ε α)
    (f : α → TaskEither σ exn ε β) (s : σ) :
    (m.flatMap f).runFull s =
      match m.runFull s with
      | (s1, .error e) => (s1, .error e)
      | (s1, .ok (.left e)) => (s1, .ok (.left e))
      | (s1, .ok (.right v)) => (f v).runFull s1 := by
  rcases hm : m.thunk s with ⟨sa, p⟩
  rcases hp : p sa with ⟨s1, r⟩
  cases r with
  | error e =>
    simp [TaskEither.runFull, TaskEither.flatMap, TaskEither.run, settleThen,
      hm, hp]
  | ok either =>
    cases either with
    | left e =>
      simp [TaskEither.runFull, TaskEither.flatMap, TaskEither.run, settleThen,
        hm, hp]
    | right v =>
      simp [TaskEither.runFull, TaskEither.flatMap, TaskEither.run, settleThen,
        hm, hp]

theorem task_runFull_task (a : α) (s : σ) :
    (task a : Task σ exn α).runFull s = (s, .ok a) := rfl

theorem taskEither_runFull_taskEither (a : α) (s : σ) :
    (taskEither a : TaskEither σ exn ε α).runFull s = (s, .ok (.right a)) := rfl

theorem taskEither_runFull_taskLeft (e : ε) (s : σ) :
    (taskLeft e : TaskEither σ exn ε α).runFull s = (s, .ok (.left e)) := rfl

/-- Claim C3: TaskEither.flatMap short-circuits on error.  If running te
resolves to left e with final state s1, then running te.flatMap(f) resolves
to the same left e at the same state, and the result is independent of the
mapper — f, and hence the wrapped callable of any TaskEither f would return,
is never invoked (no mapper-dependent effect or outcome occurs).  If running
te resolves to right v at state s1, running te.flatMap(f) is exactly running
f v from s1. -/
theorem taskEither_flatMap_short_circuits_on_left
    (σ exn ε α β : Type) (te : TaskEither σ exn ε α) (s : σ) :
    (∀ (s1 : σ) (e : ε) (f g : α → TaskEither σ exn ε β),
      te.runFull s = (s1, .ok (.left e)) →
      (te.flatMap f).runFull s = (s1, .ok (.left e)) ∧
      (te.flatMap f).runFull s = (te.flatMap g).runFull s)
    ∧ (∀ (s1 : σ) (v : α) (f : α → TaskEither σ exn ε β),
      te.runFull s = (s1, .ok (.right v)) →
      (te.flatMap f).runFull s = (f v).runFull s1) := by
  constructor
  · intro s1 e f g h
    constructor
    · rw [taskEither_runFull_flatMap, h]
    · rw [taskEither_runFull_flatMap, taskEither_runFull_flatMap, h]
  · intro s1 v f h
    rw [taskEither_runFull_flatMap, h]

/-- Witness for claim C3 at concrete inputs: a left TaskEither flatMapped
with a mapper whose task would visibly bump a counter state; the counter
stays untouched and the left propagates, while on a right the mapper's task
runs. -/
theorem taskEither_flatMap_short_circuit_witness :
    ((taskLeft "e" : TaskEither Nat String String Nat).flatMap
        (fun v => ⟨fun s => (s + 1, fun s2 => (s2, .ok (.right v)))⟩)).runFull 0
      = (0, .ok (.left "e")) ∧
    ((taskEither 7 : TaskEither Nat String String Nat).flatMap
        (fun v => ⟨fun s => (s + 1, fun s2 => (s2, .ok (.right (v + 1))))⟩)).runFull 0
      = (1, .ok (.right 8)) := by
  constructor
  · exact ((taskEither_flatMap_short_circuits_on_left Nat String String Nat Nat
      (taskLeft "e") 0).1 0 "e"
      (fun v => ⟨fun s => (s + 1, fun s2 => (s2, .ok (.right v)))⟩)
      (fun v => ⟨fun s => (s + 1, fun s2 => (s2, .ok (.right v)))⟩) rfl).1
  · exact (taskEither_flatMap_short_circuits_on_left Nat String String Nat Nat
      (taskEither 7) 0).2 0 7
      (fun v => ⟨fun s => (s + 1, fun s2 => (s2, .ok (.right (v + 1))))⟩) rfl

/-- Claim C10: Task.tap under an effectful side effect.  If running t
resolves to v at state s1 and the side effect returns normally from (v, s1)
— whatever value it returns, a promise-like value included, the return is
discarded without being consulted or awaited — then t.tap(s).run() resolves
with the original v at the side effect's final state.  If the side effect
throws, t.tap(s).run() rejects with the thrown exception instead. -/
theorem task_tap_side_effect_behaviour
    (σ exn α β : Type) (t : Task σ exn α)
    (se : α → σ → σ × Except exn β) (s s1 : σ) (v : α) :
    t.runFull s = (s1, .ok v) →
    (∀ (s2 : σ) (b : β), se v s1 = (s2, .ok b) →
      (t.tap se).runFull s = (s2, .ok v))
    ∧ (∀ (s2 : σ) (ex : exn), se v s1 = (s2, .error ex) →
      (t.tap se).runFull s = (s2, .error ex)) := by
  intro h
  constructor
  · intro s2 b hse
    rw [task_runFull_tap, h]
    simp [hse]
  · intro s2 ex hse
    rw [task_runFull_tap, h]
    simp [hse]

/-- Witness for claim C10 at concrete inputs: a normally-returning side
effect (its returned value 99 is discarded) and a synchronously throwing
side effect. -/
theorem task_tap_side_effect_witness :
    ((task 5 : Task Nat String Nat).tap
        (fun _ s => (s + 1, (.ok 99 : Except String Nat)))).runFull 0
      = (1, .ok 5) ∧
    ((task 5 : Task Nat String Nat).tap
        (fun _ s => (s, (.error "boom" : Except String Nat)))).runFull 0
      = (0, .error "boom") :=
  ⟨(task_tap_side_effect_behaviour Nat String Nat Nat (task 5)
      (fun _ s => (s + 1, .ok 99)) 0 0 5 rfl).1 1 99 rfl,
   (task_tap_side_effect_behaviour Nat String Nat Nat (task 5)
      (fun _ s => (s, .error "boom")) 0 0 5 rfl).2 0 "boom" rfl⟩

/-- Iterated running of a Task: invoke and await it n times in sequence,
threading the world state. -/
def runFullTimes (t : Task σ exn α) : Nat → σ → σ
  | 0, s => s
  | n + 1, s => runFullTimes t n (t.runFull s).1

/-- Iterated running of a TaskEither: invoke and await it n times in
sequence, threading the world state. -/
def runFullTimesTE (te : TaskEither σ exn ε α) : Nat → σ → σ
  | 0, s => s
  | n + 1, s => runFullTimesTE te n (te.runFull s).1

/-- A thunk over a counter state that records each invocation by
incrementing the counter, then resolves with a fixed value. -/
def countingThunk (v : α) : JsThunk Nat exn α :=
  fun n => (n + 1, fun m => (m, .ok v))

/-- Claim C7: non-memoization.  A Task or TaskEither built from a thunk
stores that thunk untouched — run() just invokes it, so nothing is cached
between runs: over a counter state, running the task built from a counting
thunk n times leaves the counter exactly n higher (n = 0 included: never
running never invokes the thunk). -/
theorem task_run_not_memoized (σ exn ε α : Type) :
    (∀ (th : JsThunk σ exn α), (createTask th).run = th)
    ∧ (∀ (th : JsThunk σ exn (Either ε α)), (createTaskEither th).run = th)
    ∧ (∀ (v : α) (n k : Nat),
        runFullTimes (createTask (countingThunk v) : Task Nat exn α) n k
          = k + n)
    ∧ (∀ (e : Either ε α) (n k : Nat),
        runFullTimesTE
          (createTaskEither (countingThunk e) : TaskEither Nat exn ε α) n k
          = k + n) := by
  refine ⟨fun th => rfl, fun th => rfl, ?_, ?_⟩
  · intro v n
    induction n with
    | zero => intro k; rfl
    | succ m ih =>
      intro k
      have : (runFullTimes (createTask (countingThunk v) : Task Nat exn α)
          (m + 1) k)
          = runFullTimes (createTask (countingThunk v)) m (k + 1) := rfl
      rw [this, ih]
      omega
  · intro e n
    induction n with
    | zero => intro k; rfl
    | succ m ih =>
      intro k
      have : (runFullTimesTE
          (createTaskEither (countingThunk e) : TaskEither Nat exn ε α)
          (m + 1) k)
          = runFullTimesTE (createTaskEither (countingThunk e)) m (k + 1) := rfl
      rw [this, ih]
      omega

/-- Claim C8: the monad laws for flatMap on Either, Task and TaskEither,
with Task and TaskEither equality taken as equality of observable run
outcomes (final state and settled result from every start state): left
identity (lift with the success constructor, then flatMap f, equals f),
right identity (flatMap of the success constructor is the identity) and
associativity. -/
theorem monad_laws_flatMap_either_task_taskEither
    (σ exn ε α β γ : Type) :
    (∀ (a : α) (f : α → Either ε β), (right a : Either ε α).flatMap f = f a)
    ∧ (∀ (m : Either ε α), m.flatMap (fun x => right x) = m)
    ∧ (∀ (m : Either ε α) (f : α → Either ε β) (g : β → Either ε γ),
        (m.flatMap f).flatMap g = m.flatMap (fun x => (f x).flatMap g))
    ∧ (∀ (a : α) (f : α → Task σ exn β) (s : σ),
        ((task a).flatMap f).runFull s = (f a).runFull s)
    ∧ (∀ (m : Task σ exn α) (s : σ),
        (m.flatMap (fun x => task x)).runFull s = m.runFull s)
    ∧ (∀ (m : Task σ exn α) (f : α → Task σ exn β) (g : β → Task σ exn γ)
        (s : σ),
        ((m.flatMap f).flatMap g).runFull s
          = (m.flatMap (fun x => (f x).flatMap g)).runFull s)
    ∧ (∀ (a : α) (f : α → TaskEither σ exn ε β) (s : σ),
        ((taskEither a).flatMap f).runFull s = (f a).runFull s)
    ∧ (∀ (m : TaskEither σ exn ε α) (s : σ),
        (m.flatMap (fun x => taskEither x)).runFull s = m.runFull s)
    ∧ (∀ (m : TaskEither σ exn ε α) (f : α → TaskEither σ exn ε β)
        (g : β → TaskEither σ exn ε γ) (s : σ),
        ((m.flatMap f).flatMap g).runFull s
          = (m.flatMap (fun x => (f x).flatMap g)).runFull s) := by
  refine ⟨fun a f => rfl, ?_, ?_, ?_, ?_, ?_, ?_, ?_, ?_⟩
  · intro m
    cases m <;> rfl
  · intro m f g
    cases m <;> rfl
  · intro a f s
    rw [task_runFull_flatMap, task_runFull_task]
  · intro m s
    rw [task_runFull_flatMap]
    rcases h : m.runFull s with ⟨s1, r⟩
    cases r <;> simp [task_runFull_task]
  · intro m f g s
    rw [task_runFull_flatMap, task_runFull_flatMap, task_runFull_flatMap]
    rcases h : m.runFull s with ⟨s1, r⟩
    cases r with
    | error e => rfl
    | ok v =>
      simp
      rw [task_runFull_flatMap]
  · intro a f s
    rw [taskEither_runFull_flatMap, taskEither_runFull_taskEither]
  · intro m s
    rw [taskEither_runFull_flatMap]
    rcases h : m.runFull s with ⟨s1, r⟩
    cases r with
    | error e => rfl
    | ok either => cases either <;> simp [taskEither_runFull_taskEither]
  · intro m f g s
    rw [taskEither_runFull_flatMap, taskEither_runFull_flatMap,
      taskEither_runFull_flatMap]
    rcases h : m.runFull s with ⟨s1, r⟩
    cases r with
    | error e => rfl
    | ok either =>
      cases either with
      | left e => rfl
      | right v =>
        simp
        rw [taskEither_runFull_flatMap]

theorem promiseAll_map_ok (es : List α) :
    promiseAll (es.map (Except.ok : α → Except exn α)) = .ok es := by
  induction es with
  | nil => rfl
  | cons e rest ih => simp [promiseAll, ih, Except.map]

theorem scanEithers_rights (vs : List α) :
    ∀ out : List α,
      scanEithers ((vs.map Either.right : List (Either ε α))) out
        = .right (out ++ vs) := by
  induction vs with
  | nil => intro out; simp [scanEithers]
  | cons v rest ih =>
    intro out
    simp [scanEithers, Either.toResult, ih]

theorem scanEithers_first_left (vs : List α) (e : ε)
    (rest : List (Either ε α)) :
    ∀ out : List α,
      scanEithers (vs.map Either.right ++ .left e :: rest) out = .left e := by
  induction vs with
  | nil => intro out; simp [scanEithers, Either.toResult]
  | cons v vrest ih =>
    intro out
    simp [scanEithers, Either.toResult, ih]

theorem invokeAll_state (ths : List (JsThunk σ exn α)) :
    ∀ s : σ, (invokeAll ths s).1 = ths.foldl (fun st th => (th st).1) s := by
  induction ths with
  | nil => intro s; rfl
  | cons th rest ih =>
    intro s
    simp [invokeAll, List.foldl_cons, ih]

theorem taskEither_all_runFull_eq (tes : List (TaskEither σ exn ε α))
    (s : σ) :
    (TaskEither.all tes).runFull s =
      ((gatherTE tes s).1,
        match promiseAll (gatherTE tes s).2 with
        | .error ex => .error ex
        | .ok eithers => .ok (scanEithers eithers [])) := rfl

/-- Claim C2: TaskEither.all resolves every branch, then scans the outcomes
in input order.  The combined run invokes every thunk and awaits every
settlement (gatherTE), and only then inspects the outcome list; when no
branch rejected, the result is the scan of the settled Eithers in input
order — the first left encountered in input order when one exists, else the
right values in input order; the empty list resolves to success with the
empty list.  In this event-loop model the scan input is the input-ordered
outcome list produced after all branches completed, so the selection is a
deterministic function of the outcomes, not of completion timing. -/
theorem taskEither_all_scans_first_error_in_input_order (σ exn ε α : Type) :
    (∀ (tes : List (TaskEither σ exn ε α)) (s : σ),
      (TaskEither.all tes).runFull s =
        ((gatherTE tes s).1,
          match promiseAll (gatherTE tes s).2 with
          | .error ex => .error ex
          | .ok eithers => .ok (scanEithers eithers [])))
    ∧ (∀ (tes : List (TaskEither σ exn ε α)) (s s2 : σ)
        (es : List (Either ε α)),
        gatherTE tes s = (s2, es.map Except.ok) →
        (TaskEither.all tes).runFull s = (s2, .ok (scanEithers es [])))
    ∧ (∀ vs : List α,
        scanEithers ((vs.map Either.right : List (Either ε α))) []
          = .right vs)
    ∧ (∀ (vs : List α) (e : ε) (rest : List (Either ε α)),
        scanEithers (vs.map Either.right ++ .left e :: rest) [] = .left e)
    ∧ (∀ s : σ,
        (TaskEither.all ([] : List (TaskEither σ exn ε α))).runFull s
          = (s, .ok (.right []))) := by
  refine ⟨taskEither_all_runFull_eq, ?_, ?_, ?_, fun s => rfl⟩
  · intro tes s s2 es h
    rw [taskEither_all_runFull_eq, h]
    simp [promiseAll_map_ok]
  · intro vs
    simpa using scanEithers_rights vs []
  · intro vs e rest
    exact scanEithers_first_left vs e rest []

/-- Witness for claim C2 at concrete inputs: a mixed list selects the first
left in input order even though a later branch also succeeds, an all-success
list resolves to the values in input order, and its gather hypothesis is
discharged by evaluation. -/
theorem taskEither_all_first_error_witness :
    (TaskEither.all
        [taskEither 1, taskLeft "err", taskEither 3,
          (taskLeft "late" : TaskEither Nat String String Nat)]).runFull 0
      = (0, .ok (.left "err")) ∧
    (TaskEither.all
        [taskEither 1, (taskEither 2 : TaskEither Nat String String Nat)]).runFull 0
      = (0, .ok (.right [1, 2])) :=
  ⟨(taskEither_all_scans_first_error_in_input_order Nat String String Nat).2.1
      [taskEither 1, taskLeft "err", taskEither 3, taskLeft "late"] 0 0
      [.right 1, .left "err", .right 3, .left "late"] rfl,
   (taskEither_all_scans_first_error_in_input_order Nat String String Nat).2.1
      [taskEither 1, taskEither 2] 0 0 [.right 1, .right 2] rfl⟩

/-- Claim C4: applicative short-circuit, first-error-wins.  On Either,
left(e1).ap(left(e2)) is left(e1) — e2 never appears, no accumulation.  On
TaskEither, applying a receiver whose settlement resolves to left e1 to an
argument whose settlement resolves to left e2 yields exactly ok (left e1):
only the receiver's error survives, as in the concrete taskLeft case. -/
theorem either_ap_first_error_wins (σ exn ε α β : Type) :
    (∀ (e1 e2 : ε),
      Either.ap (left e1 : Either ε (α → β)) (left e2) = Either.left e1)
    ∧ (∀ (e1 e2 : ε) (s : σ),
      ((taskLeft e1 : TaskEither σ exn ε (α → β)).ap
          (taskLeft e2)).runFull s = (s, .ok (.left e1)))
    ∧ (∀ (te1 : TaskEither σ exn ε (α → β)) (te2 : TaskEither σ exn ε α)
        (s sa sb s3 s4 : σ) (p1 : Settle σ exn (Either ε (α → β)))
        (p2 : Settle σ exn (Either ε α)) (e1 e2 : ε),
        te1.run s = (sa, p1) → te2.run sa = (sb, p2) →
        p1 sb = (s3, .ok (.left e1)) → p2 s3 = (s4, .ok (.left e2)) →
        (te1.ap te2).runFull s = (s4, .ok (.left e1))) := by
  refine ⟨fun e1 e2 => rfl, fun e1 e2 s => rfl, ?_⟩
  intro te1 te2 s sa sb s3 s4 p1 p2 e1 e2 h1 h2 h3 h4
  simp [TaskEither.ap, TaskEither.runFull, h1, h2, h3, h4, Either.ap]

/-- Witness for claim C4 at concrete inputs, discharging the run and
settlement hypotheses of the general TaskEither clause by evaluation. -/
theorem either_ap_first_error_wins_witness :
    ((taskLeft "a" : TaskEither Nat String String (Nat → Nat)).ap
        (taskLeft "b")).runFull 0 = (0, .ok (.left "a")) :=
  (either_ap_first_error_wins Nat String String Nat Nat).2.2
    (taskLeft "a") (taskLeft "b") 0 0 0 0 0
    (fun s2 => (s2, .ok (.left "a"))) (fun s2 => (s2, .ok (.left "b")))
    "a" "b" rfl rfl rfl rfl

/-- An observable event of the event-loop model: the invocation of the i-th
callable, or the settlement of the i-th promise. -/
inductive RunEvent : Type where
  | invoke (i : Nat)
  | settle (i : Nat)
deriving Repr, DecidableEq

/-- A task over a trace state that logs its invocation when its callable is
invoked and its settlement when its promise settles, resolving with its
index. -/
def logTask (i : Nat) : Task (List RunEvent) exn Nat :=
  ⟨fun s => (s ++ [.invoke i], fun s2 => (s2 ++ [.settle i], .ok i))⟩

theorem invokeAll_logTasks (idxs : List Nat) :
    ∀ s : List RunEvent,
      invokeAll (idxs.map (fun i => ((logTask i : Task (List RunEvent) exn Nat)).run)) s
        = (s ++ idxs.map RunEvent.invoke,
            idxs.map (fun i =>
              (fun s2 => (s2 ++ [RunEvent.settle i], Except.ok i)))) := by
  induction idxs with
  | nil => intro s; simp [invokeAll]
  | cons i rest ih =>
    intro s
    have step :
        invokeAll
            ((i :: rest).map (fun j => ((logTask j : Task (List RunEvent) exn Nat)).run)) s
          = ((invokeAll (rest.map (fun j => (logTask j).run))
                (s ++ [RunEvent.invoke i])).1,
             (fun s2 => (s2 ++ [RunEvent.settle i], Except.ok i)) ::
               (invokeAll (rest.map (fun j => (logTask j).run))
                 (s ++ [RunEvent.invoke i])).2) := rfl
    rw [step, ih]
    simp

theorem settleAll_logSettles (idxs : List Nat) :
    ∀ s : List RunEvent,
      settleAll
          (idxs.map (fun i =>
            (fun s2 => (s2 ++ [RunEvent.settle i],
              (Except.ok i : Except exn Nat))))) s
        = (s ++ idxs.map RunEvent.settle, idxs.map Except.ok) := by
  induction idxs with
  | nil => intro s; simp [settleAll]
  | cons i rest ih =>
    intro s
    simp [settleAll, ih]

/-- Claim C9: concurrent start and input-order results for the applicative
and collection combinators of Task and TaskEither.  During the combined
thunk's synchronous body, all/ap/zip invoke every underlying callable, in
input order, chained only through the world state — no settlement is
consulted, so no element waits on a sibling's resolution before starting
(contrast flatMap, whose second callable runs inside the first settlement).
On a trace state, running all over logging tasks yields every invocation
event before any settlement event, with the resolved values in input order
regardless of the interleaved effects; traverse and sequence are all over
the mapped list. -/
theorem concurrent_start_input_order (σ exn ε α β : Type) :
    (∀ (ts : List (Task σ exn α)) (s : σ),
      ((Task.all ts).run s).1 = ts.foldl (fun st t => (t.run st).1) s)
    ∧ (∀ (tes : List (TaskEither σ exn ε α)) (s : σ),
      ((TaskEither.all tes).run s).1
        = tes.foldl (fun st te => (te.run st).1) s)
    ∧ (∀ (a : Task σ exn (α → β)) (b : Task σ exn α) (s : σ),
      ((a.ap b).run s).1 = (b.run (a.run s).1).1)
    ∧ (∀ (t : Task σ exn α) (u : Task σ exn β) (s : σ),
      ((t.zip u).run s).1 = (u.run (t.run s).1).1)
    ∧ (∀ (a : TaskEither σ exn ε (α → β)) (b : TaskEither σ exn ε α) (s : σ),
      ((a.ap b).run s).1 = (b.run (a.run s).1).1)
    ∧ (∀ (t : TaskEither σ exn ε α) (u : TaskEither σ exn ε β) (s : σ),
      ((t.zip u).run s).1 = (u.run (t.run s).1).1)
    ∧ (∀ (items : List α) (f : α → Task σ exn β),
      Task.traverse items f = Task.all (items.map f))
    ∧ (∀ ts : List (Task σ exn α), Task.sequence ts = Task.all ts)
    ∧ (∀ idxs : List Nat,
      (Task.all (idxs.map (fun i => (logTask i : Task (List RunEvent) exn Nat)))).runFull []
        = (idxs.map RunEvent.invoke ++ idxs.map RunEvent.settle,
            .ok idxs)) := by
  refine ⟨?_, ?_, fun a b s => rfl, fun t u s => rfl, fun a b s => rfl,
    fun t u s => rfl, fun items f => rfl, fun ts => rfl, ?_⟩
  · intro ts s
    have h : ((Task.all ts).run s).1 = (invokeAll (ts.map Task.run) s).1 := rfl
    rw [h, invokeAll_state, List.foldl_map]
  · intro tes s
    have h : ((TaskEither.all tes).run s).1
        = (invokeAll (tes.map TaskEither.run) s).1 := rfl
    rw [h, invokeAll_state, List.foldl_map]
  · intro idxs
    have h : (Task.all (idxs.map (fun i => (logTask i : Task (List RunEvent) exn Nat)))).runFull []
        = (let r := invokeAll (idxs.map (fun i => (logTask i).run)) []
           let q := settleAll r.2 r.1
           (q.1, promiseAll q.2)) := by
      simp [Task.all, Task.runFull, List.map_map, Function.comp_def]
    rw [h]
    simp [invokeAll_logTasks, settleAll_logSettles, promiseAll_map_ok]

end OkFp
